import Mathlib

/-!
Verification of the PR-review script (`.github/scripts/pr_review.py`)
of the `techWeekSL` repository, as a shallow embedding in Lean.

Pure functions of the script are translated to Lean functions; the
stateful batching loop of `review_in_batches` becomes a structurally
recursive function over the remaining file list, carrying the mutable
locals (`current_batch`, `current_size`) as explicit arguments.
External effects (the GitHub API, the Claude CLI subprocess, Python's
`json.loads`) are abstracted as function parameters where a claim needs
them.
-/

namespace PrReview

/-- A reviewable file as gathered from the pull request: `gather_pr_context`
produces records with `filename`, `patch` (unified-diff text) and `status`. -/
structure FileInfo where
  filename : String
  patch : String
  status : String
deriving DecidableEq, Repr

/-- Character budget for one review batch (`BATCH_CHAR_LIMIT = 150_000`). -/
def BATCH_CHAR_LIMIT : Nat := 150000

/-- Total patch-character size of a batch: the sum of `len(info["patch"])`
over the batch, as accumulated in `current_size` by the script. -/
def batch_size (b : List FileInfo) : Nat := (b.map (fun f => f.patch.length)).sum

/-- The batching loop of `review_in_batches` (lines 303-317 of the script),
with the Python locals `current_batch` and `current_size` made explicit.
For each file: if the current batch is non-empty and adding the file's patch
length would exceed the limit, the current batch is closed and a new one is
started; the file is then always appended to the current batch.  After the
loop the current batch is closed if non-empty. -/
def planBatchesAux (limit : Nat) :
    List FileInfo → List FileInfo → Nat → List (List FileInfo)
  | [], current_batch, _ =>
    if current_batch = [] then [] else [current_batch]
  | f :: rest, current_batch, current_size =>
    if current_batch ≠ [] ∧ current_size + f.patch.length > limit then
      current_batch :: planBatchesAux limit rest [f] f.patch.length
    else
      planBatchesAux limit rest (current_batch ++ [f]) (current_size + f.patch.length)

/-- The batch planner: the batching loop started from an empty current batch
(the spec's `plan_batches(files, limit)`). -/
def plan_batches (limit : Nat) (files : List FileInfo) : List (List FileInfo) :=
  planBatchesAux limit files [] 0

lemma planBatchesAux_join (limit : Nat) :
    ∀ (rest current_batch : List FileInfo) (size : Nat),
      (planBatchesAux limit rest current_batch size).flatten = current_batch ++ rest := by
  intro rest
  induction rest with
  | nil =>
    intro cur size
    by_cases h : cur = [] <;> simp [planBatchesAux, h]
  | cons f rest ih =>
    intro cur size
    by_cases h : cur ≠ [] ∧ size + f.patch.length > limit
    · simp [planBatchesAux, h, ih]
    · simp [planBatchesAux, h, ih]

lemma planBatchesAux_ne_nil (limit : Nat) :
    ∀ (rest current_batch : List FileInfo) (size : Nat),
      ∀ b ∈ planBatchesAux limit rest current_batch size, b ≠ [] := by
  intro rest
  induction rest with
  | nil =>
    intro cur size b hb
    by_cases h : cur = []
    · simp [planBatchesAux, h] at hb
    · simp [planBatchesAux, h] at hb
      simpa [hb] using h
  | cons f rest ih =>
    intro cur size b hb
    by_cases h : cur ≠ [] ∧ size + f.patch.length > limit
    · rw [planBatchesAux, if_pos h] at hb
      rcases List.mem_cons.mp hb with hb | hb
      · simpa [hb] using h.1
      · exact ih [f] f.patch.length b hb
    · rw [planBatchesAux, if_neg h] at hb
      exact ih (cur ++ [f]) (size + f.patch.length) b hb

/-- C1: for every limit and every input list, the batch planner produces no
empty batch, concatenating the batches in order reproduces the input list
exactly, and the empty input yields zero batches. -/
theorem plan_batches_exact_partition (limit : Nat) (files : List FileInfo) :
    ((plan_batches limit files).all (fun b => !b.isEmpty)) = true ∧
    (plan_batches limit files).flatten = files ∧
    plan_batches limit ([] : List FileInfo) = [] := by
  refine ⟨?_, ?_, ?_⟩
  · rw [List.all_eq_true]
    intro b hb
    have hne := planBatchesAux_ne_nil limit files [] 0 b hb
    simp [List.isEmpty_iff, hne]
  · simpa using planBatchesAux_join limit files [] 0
  · simp [plan_batches, planBatchesAux]

lemma mem_le_batch_size {f : FileInfo} {b : List FileInfo} (hf : f ∈ b) :
    f.patch.length ≤ batch_size b := by
  unfold batch_size
  exact List.single_le_sum (fun x _ => Nat.zero_le x) _
    (List.mem_map_of_mem (fun g => g.patch.length) hf)

lemma batch_size_append (a b : List FileInfo) :
    batch_size (a ++ b) = batch_size a + batch_size b := by
  simp [batch_size]

lemma planBatchesAux_bounded (limit : Nat) :
    ∀ (rest current_batch : List FileInfo) (size : Nat),
      size = batch_size current_batch →
      (2 ≤ current_batch.length → batch_size current_batch ≤ limit) →
      (∀ f ∈ current_batch, limit < f.patch.length → current_batch = [f]) →
      ∀ b ∈ planBatchesAux limit rest current_batch size,
        (2 ≤ b.length → batch_size b ≤ limit) ∧
        (∀ f ∈ b, limit < f.patch.length → b = [f]) := by
  intro rest
  induction rest with
  | nil =>
    intro cur size _ h2 h1 b hb
    by_cases h : cur = []
    · simp [planBatchesAux, h] at hb
    · simp [planBatchesAux, h] at hb
      subst hb
      exact ⟨h2, h1⟩
  | cons f rest ih =>
    intro cur size hsize h2 h1 b hb
    by_cases h : cur ≠ [] ∧ size + f.patch.length > limit
    · rw [planBatchesAux, if_pos h] at hb
      rcases List.mem_cons.mp hb with hb | hb
      · subst hb
        exact ⟨h2, h1⟩
      · refine ih [f] f.patch.length (by simp [batch_size]) ?_ ?_ b hb
        · intro hlen
          simp at hlen
        · intro g hg
          simp at hg
          subst hg
          intro _
          rfl
    · rw [planBatchesAux, if_neg h] at hb
      push_neg at h
      refine ih (cur ++ [f]) (size + f.patch.length)
        (by simp [batch_size_append, batch_size, hsize]) ?_ ?_ b hb
      · intro hlen
        by_cases hc : cur = []
        · subst hc
          simp at hlen
        · have hle : size + f.patch.length ≤ limit := h hc
          have hb1 : batch_size [f] = f.patch.length := by simp [batch_size]
          rw [batch_size_append, hb1]
          omega
      · intro g hg hgs
        by_cases hc : cur = []
        · subst hc
          simp at hg ⊢
          simp [hg]
        · have hle : size + f.patch.length ≤ limit := h hc
          rcases List.mem_append.mp hg with hgc | hgf
          · have hmem : g.patch.length ≤ batch_size cur := mem_le_batch_size hgc
            omega
          · simp at hgf
            subst hgf
            omega

/-- C2: every batch produced by the planner that contains two or more files
has total patch size at most the limit, and a file whose own patch length
exceeds the limit always appears alone in its batch. -/
theorem plan_batches_respects_limit (limit : Nat) (files : List FileInfo)
    (b : List FileInfo) (hb : b ∈ plan_batches limit files) :
    (2 ≤ b.length → batch_size b ≤ limit) ∧
    (∀ f ∈ b, limit < f.patch.length → b = [f]) := by
  refine planBatchesAux_bounded limit files [] 0 (by simp [batch_size]) ?_ ?_ b hb
  · intro hlen
    simp at hlen
  · intro g hg
    simp at hg

/-- Two one-character files used as concrete witnesses for the planner. -/
def fileA : FileInfo := { filename := "a.txt", patch := "a", status := "modified" }

def fileB : FileInfo := { filename := "b.txt", patch := "b", status := "modified" }

theorem plan_batches_respects_limit_witness :
    ([fileA, fileB] ∈ plan_batches 3 [fileA, fileB]) ∧
    2 ≤ ([fileA, fileB] : List FileInfo).length ∧
    batch_size [fileA, fileB] ≤ 3 := by
  refine ⟨by decide, by decide, ?_⟩
  exact (plan_batches_respects_limit 3 [fileA, fileB] [fileA, fileB] (by decide)).1
    (by decide)

lemma planBatchesAux_single (limit : Nat) :
    ∀ (rest current_batch : List FileInfo) (size : Nat),
      size = batch_size current_batch →
      current_batch ++ rest ≠ [] →
      batch_size current_batch + batch_size rest ≤ limit →
      planBatchesAux limit rest current_batch size = [current_batch ++ rest] := by
  intro rest
  induction rest with
  | nil =>
    intro cur size _ hne _
    have hcur : cur ≠ [] := by simpa using hne
    simp [planBatchesAux, hcur]
  | cons f rest ih =>
    intro cur size hsize hne hle
    have hsum : batch_size (f :: rest) = f.patch.length + batch_size rest := by
      simp [batch_size]
    rw [hsum] at hle
    have hguard : ¬ (cur ≠ [] ∧ size + f.patch.length > limit) := by
      rintro ⟨-, hgt⟩
      omega
    rw [planBatchesAux, if_neg hguard,
      ih (cur ++ [f]) (size + f.patch.length)
        (by simp [batch_size_append, batch_size, hsize]) (by simp)
        (by
          have hb1 : batch_size [f] = f.patch.length := by simp [batch_size]
          rw [batch_size_append, hb1]
          omega)]
    simp

/-- The 10-character-patch and 20-character-patch files of the spec's
end-to-end batching example. -/
def file1 : FileInfo := { filename := "file1", patch := "0123456789", status := "modified" }

def file2 : FileInfo :=
  { filename := "file2", patch := "01234567890123456789", status := "modified" }

/-- C3: a non-empty file list whose patch lengths sum to at most the limit is
planned as exactly one batch holding all the files; concretely, with patch
sizes 10 and 20 the planner yields `[[file1], [file2]]` at limit 25 and
`[[file1, file2]]` at limit 100. -/
theorem plan_batches_single_when_under_limit :
    (∀ (limit : Nat) (files : List FileInfo),
        files ≠ [] → batch_size files ≤ limit → plan_batches limit files = [files]) ∧
    plan_batches 25 [file1, file2] = [[file1], [file2]] ∧
    plan_batches 100 [file1, file2] = [[file1, file2]] := by
  refine ⟨?_, by decide, by decide⟩
  intro limit files hne hle
  have := planBatchesAux_single limit files [] 0 (by simp [batch_size])
    (by simpa using hne) (by simpa [batch_size] using hle)
  simpa [plan_batches] using this

theorem plan_batches_single_when_under_limit_witness :
    ([file1, file2] : List FileInfo) ≠ [] ∧
    batch_size [file1, file2] ≤ 100 ∧
    plan_batches 100 [file1, file2] = [[file1, file2]] := by
  refine ⟨by decide, by decide, ?_⟩
  exact plan_batches_single_when_under_limit.1 100 [file1, file2] (by decide) (by decide)

/-- Model of Python's `str.strip()` with no argument: remove whitespace from
both ends of the string. -/
def py_strip (s : String) : String :=
  String.mk (((s.toList.dropWhile Char.isWhitespace).reverse.dropWhile
    Char.isWhitespace).reverse)

/-- Model of Python's `str.lower()` (ASCII case folding, which is all the
script's extension denylist needs). -/
def py_lower (s : String) : String :=
  String.mk (s.toList.map Char.toLower)

/-- A raw comment record from the model's JSON output, as read by
`validate_comments`: `comment.get("path", "")`, `comment.get("line")` (absent
or non-integer modelled as `none`), `comment.get("body", "")`. -/
structure RawComment where
  path : String
  line : Option Int
  body : String
deriving DecidableEq, Repr

/-- A validated review comment (the `ReviewComment` dataclass). -/
structure ReviewComment where
  path : String
  line : Int
  body : String
deriving DecidableEq, Repr

/-- `validate_comments` (lines 344-365): walk the raw records in order and
drop any whose path is unknown, whose line is not a positive integer, or
whose body strips to empty; survivors keep their relative order. -/
def validate_comments : List RawComment → List String → List ReviewComment
  | [], _ => []
  | c :: rest, valid_files =>
    if c.path ∉ valid_files then
      validate_comments rest valid_files
    else
      match c.line with
      | none => validate_comments rest valid_files
      | some l =>
        if l < 1 then
          validate_comments rest valid_files
        else if py_strip c.body = "" then
          validate_comments rest valid_files
        else
          { path := c.path, line := l, body := c.body } ::
            validate_comments rest valid_files

/-- The per-record acceptance rule as the spec states it: keep a record iff
its path is a known filename, its line is a positive integer, and its body is
non-empty after trimming whitespace. -/
def comment_filter (valid_files : List String) (c : RawComment) : Option ReviewComment :=
  match c.line with
  | none => none
  | some l =>
    if c.path ∈ valid_files ∧ 1 ≤ l ∧ py_strip c.body ≠ "" then
      some { path := c.path, line := l, body := c.body }
    else
      none

/-- C4: the validator is exactly the in-order filter described by the spec,
and on the spec's four-record example with known filenames `{"a.py"}` it
returns the single comment `("a.py", 5, "bug")`. -/
theorem validate_comments_filters_in_order :
    (∀ (comments : List RawComment) (valid_files : List String),
        validate_comments comments valid_files =
          comments.filterMap (comment_filter valid_files)) ∧
    validate_comments
        [{ path := "a.py", line := some 5, body := "bug" },
         { path := "b.py", line := some 1, body := "x" },
         { path := "a.py", line := some 0, body := "x" },
         { path := "a.py", line := some 3, body := "  " }]
        ["a.py"] =
      [{ path := "a.py", line := 5, body := "bug" }] := by
  refine ⟨?_, by decide⟩
  intro comments valid_files
  induction comments with
  | nil => simp [validate_comments]
  | cons c rest ih =>
    by_cases hp : c.path ∈ valid_files
    · cases hl : c.line with
      | none => simp [validate_comments, comment_filter, hp, hl, ih]
      | some l =>
        by_cases hl1 : l < 1
        · have : ¬ (c.path ∈ valid_files ∧ 1 ≤ l ∧ py_strip c.body ≠ "") := by
            rintro ⟨-, hge, -⟩
            omega
          simp [validate_comments, comment_filter, hp, hl, hl1, this, ih]
        · by_cases hbody : py_strip c.body = ""
          · have : ¬ (c.path ∈ valid_files ∧ 1 ≤ l ∧ py_strip c.body ≠ "") := by
              rintro ⟨-, -, hne⟩
              exact hne hbody
            simp [validate_comments, comment_filter, hp, hl, hl1, hbody, this, ih]
          · have hkeep : c.path ∈ valid_files ∧ 1 ≤ l ∧ py_strip c.body ≠ "" :=
              ⟨hp, by omega, hbody⟩
            simp [validate_comments, comment_filter, hp, hl, hl1, hbody, hkeep, ih]
    · have hnone : comment_filter valid_files c = none := by
        cases hl : c.line with
        | none => simp [comment_filter, hl]
        | some l => simp [comment_filter, hl, hp]
      simp [validate_comments, hp, hnone, ih]

/-- The `SKIP_EXTENSIONS` denylist of binary/media/artifact extensions. -/
def SKIP_EXTENSIONS : List String :=
  [".png", ".jpg", ".jpeg", ".gif", ".ico", ".svg", ".woff", ".woff2", ".ttf",
   ".eot", ".otf", ".mp3", ".mp4", ".webm", ".ogg", ".wav", ".zip", ".tar",
   ".gz", ".bz2", ".xz", ".pdf", ".pyc", ".pyo", ".so", ".dylib", ".dll",
   ".exe", ".bin", ".dat"]

/-- The `SKIP_PATHS` exact-name denylist (lockfiles and housekeeping files). -/
def SKIP_PATHS : List String :=
  ["poetry.lock", "package-lock.json", "yarn.lock", "pnpm-lock.yaml", ".gitignore"]

/-- The `SKIP_PATH_PREFIXES` directory-prefix denylist. -/
def SKIP_PATH_PREFIXES : List String :=
  ["packages/app/tubescreamer/migrations/", ".tox/", ".env/", "node_modules/"]

/-- Model of `pathlib.Path(filename).suffix`: the extension of the final
path component — the part from its last dot onwards, provided that dot is
neither the first nor the last character of the component. -/
def path_suffix (filename : String) : String :=
  let name := (filename.toList.reverse.takeWhile (fun c => c != '/')).reverse
  let ext := name.reverse.takeWhile (fun c => c != '.')
  if ext.length + 1 < name.length ∧ ext ≠ [] then
    String.mk ('.' :: ext.reverse)
  else
    ""

/-- `should_review_file` (lines 133-141): reject exact matches against
`SKIP_PATHS`, then paths starting with a `SKIP_PATH_PREFIXES` entry, then
files whose lower-cased `Path(...).suffix` is in `SKIP_EXTENSIONS`. -/
def should_review_file (filename : String) : Bool :=
  if filename ∈ SKIP_PATHS then
    false
  else if SKIP_PATH_PREFIXES.any (fun p => p.toList.isPrefixOf filename.toList) then
    false
  else if py_lower (path_suffix filename) ∈ SKIP_EXTENSIONS then
    false
  else
    true

/-- C6 counterexample: the exact-name denylist is compared against the whole
path string, not against the bare filename, so `"a/b/package-lock.json"` is
NOT skipped — `should_review_file` returns true on it, contradicting the
claim that its bare filename `"package-lock.json"` is matched against the
denylist. -/
theorem should_review_file_full_path_counterexample :
    should_review_file "a/b/package-lock.json" = true := by decide

/-- C6 (amended): `should_review_file` is false on `"poetry.lock"` (exact
denylist match), false on `"image.PNG"` (case-insensitive extension match),
true on `"src/main.go"`; the exact-name denylist compares the full path
string, so the bare name `"package-lock.json"` is skipped while
`"a/b/package-lock.json"` is reviewed. -/
theorem should_review_file_cases :
    should_review_file "poetry.lock" = false ∧
    should_review_file "image.PNG" = false ∧
    should_review_file "src/main.go" = true ∧
    should_review_file "package-lock.json" = false ∧
    should_review_file "a/b/package-lock.json" = true := by
  refine ⟨by decide, by decide, by decide, by decide, by decide⟩

/-- The fixed trailing signature appended to everything the script posts. -/
def SIGNATURE : String := "\n\n---\n*Review by Claude*"

/-- One inline comment dict as built by `post_review` for the GitHub review
call: path, line, `side = "RIGHT"`, and the comment body with the signature
appended. -/
structure InlineComment where
  path : String
  line : Int
  side : String
  body : String
deriving DecidableEq, Repr

/-- The review payload `post_review` hands to `pull_request.create_review`
in live mode: a body string and the list of inline comments. -/
structure ReviewPost where
  body : String
  comments : List InlineComment
deriving DecidableEq, Repr

/-- The live (non-dry-run) branch of `post_review` (lines 382-402): build one
inline comment per validated `ReviewComment` with the signature appended, and
use `summary + SIGNATURE` as the review body only when the inline comment
list is empty, the empty string otherwise. -/
def post_review_live (comments : List ReviewComment) (summary : String) : ReviewPost :=
  let review_comments := comments.map (fun c =>
    { path := c.path, line := c.line, side := "RIGHT", body := c.body ++ SIGNATURE })
  { body := if review_comments.isEmpty then summary ++ SIGNATURE else "",
    comments := review_comments }

/-- C5: in live mode the posted review has exactly one inline comment per
validated comment, each with the signature appended to its body; the review
body equals `summary ++ SIGNATURE` when there are zero inline comments, and
is the empty string (the summary is not posted) when there is at least one. -/
theorem post_review_live_shape (comments : List ReviewComment) (summary : String) :
    (post_review_live comments summary).comments =
      comments.map (fun c =>
        { path := c.path, line := c.line, side := "RIGHT",
          body := c.body ++ SIGNATURE }) ∧
    (comments = [] →
      (post_review_live comments summary).body = summary ++ SIGNATURE) ∧
    (comments ≠ [] → (post_review_live comments summary).body = "") := by
  refine ⟨rfl, ?_, ?_⟩
  · intro h
    subst h
    rfl
  · intro h
    cases comments with
    | nil => exact absurd rfl h
    | cons c rest => rfl

theorem post_review_live_shape_witness :
    (([] : List ReviewComment) = []) ∧
    (post_review_live [] "LGTM").body = "LGTM" ++ SIGNATURE ∧
    (([{ path := "a.py", line := 1, body := "bug" }] : List ReviewComment) ≠ []) ∧
    (post_review_live [{ path := "a.py", line := 1, body := "bug" }] "LGTM").body = "" := by
  refine ⟨rfl, ?_, by decide, ?_⟩
  · exact (post_review_live_shape [] "LGTM").2.1 rfl
  · exact (post_review_live_shape [{ path := "a.py", line := 1, body := "bug" }]
      "LGTM").2.2 (by decide)

/-- The response envelope read back from the Claude CLI: `is_error` and an
optional `result` string (`response.get("result")`, `none` when absent). -/
structure ClaudeResponse where
  is_error : Bool
  result : Option String
deriving DecidableEq, Repr

/-- The fence-stripping step of `invoke_claude` (lines 289-290): strip the
payload, delete a leading literal three-backtick-`json` marker together with
the whitespace following it, then delete a trailing three-backtick marker
together with the whitespace preceding it. -/
def clean_result (result_text : String) : String :=
  let s := py_strip result_text
  let s1 :=
    if "```json".toList.isPrefixOf s.toList then
      String.mk ((s.toList.drop 7).dropWhile Char.isWhitespace)
    else
      s
  if "```".toList.isSuffixOf s1.toList then
    String.mk (((s1.toList.reverse.drop 3).dropWhile Char.isWhitespace).reverse)
  else
    s1

/-- Whether `needle` occurs as a contiguous run inside the character list. -/
def has_substring (needle : List Char) : List Char → Bool
  | [] => needle.isPrefixOf []
  | c :: rest => needle.isPrefixOf (c :: rest) || has_substring needle rest

/-- Substring test used by the balance special case (`x in y` on Python
strings). -/
def str_contains (haystack needle : String) : Bool :=
  has_substring needle.toList haystack.toList

/-- The response handling of `invoke_claude` (lines 276-291), with Python's
`json.loads` abstracted as a `json_loads` parameter that returns `none` on a
parse failure.  Error envelopes raise; an empty payload raises; otherwise the
fence-stripped payload is parsed, and a parse failure raises. -/
def invoke_claude_response {α : Type} (response : ClaudeResponse)
    (json_loads : String → Option α) : Except String α :=
  if response.is_error then
    let error_msg := response.result.getD "unknown"
    if str_contains error_msg "Credit balance is too low" ∨
        str_contains (py_lower error_msg) "balance" then
      Except.error ("Anthropic API error: " ++ error_msg)
    else
      Except.error ("Claude error: " ++ error_msg)
  else
    let result_text := response.result.getD ""
    if result_text = "" then
      Except.error "No review output from Claude CLI"
    else
      match json_loads (clean_result result_text) with
      | some v => Except.ok v
      | none => Except.error "invalid JSON in review output"

/-- C7 counterexample: the leading-fence stripping only recognises a
three-backtick marker immediately followed by `json`; a plain three-backtick
opening fence is left in place, so the payload framed by plain fences is not
reduced to its fenced content — refuting the claim that any leading fence is
stripped before parsing. -/
theorem clean_result_plain_fence_counterexample :
    clean_result "```\n42\n```" = "```\n42" ∧ clean_result "```\n42\n```" ≠ "42" := by
  refine ⟨by decide, by decide⟩

/-- C7 (amended): on a success envelope, an absent or empty payload is a
fatal error; a non-empty payload is stripped of a leading
three-backtick-`json` fence marker and a trailing three-backtick fence
marker and then parsed, a parse failure being fatal for the batch; a
`json`-marked fenced payload is reduced exactly to its fenced content. -/
theorem invoke_claude_success_behavior {α : Type} (json_loads : String → Option α) :
    invoke_claude_response { is_error := false, result := some "" } json_loads =
      Except.error "No review output from Claude CLI" ∧
    invoke_claude_response { is_error := false, result := none } json_loads =
      Except.error "No review output from Claude CLI" ∧
    (∀ txt : String, txt ≠ "" →
      invoke_claude_response { is_error := false, result := some txt } json_loads =
        match json_loads (clean_result txt) with
        | some v => Except.ok v
        | none => Except.error "invalid JSON in review output") ∧
    clean_result "```json\n42\n```" = "42" := by
  refine ⟨rfl, rfl, ?_, by decide⟩
  intro txt htxt
  rw [invoke_claude_response, if_neg (by simp)]
  simp only [Option.getD]
  rw [if_neg htxt]

theorem invoke_claude_success_behavior_witness :
    ("42" : String) ≠ "" ∧
    invoke_claude_response { is_error := false, result := some "42" }
        (fun _ => (none : Option Nat)) =
      Except.error "invalid JSON in review output" := by
  refine ⟨by decide, ?_⟩
  exact (invoke_claude_success_behavior (fun _ => (none : Option Nat))).2.2.1 "42"
    (by decide)

/-- One batch's parsed review output as consumed by the aggregation loop:
`result.get("comments", [])` and `result.get("summary", "")`. -/
structure BatchResult where
  comments : List RawComment
  summary : String
deriving DecidableEq, Repr

/-- `review_in_batches` (lines 294-341) with the per-batch prompt build and
Claude invocation abstracted as `invoke` (the pull request, guidelines text
and model are fixed for a run, so a batch determines its result).  Empty
input short-circuits; otherwise the batches are reviewed in order, comments
are concatenated across batches, and the summaries are joined with a blank
line exactly when more than one batch ran. -/
def review_in_batches (limit : Nat) (file_infos : List FileInfo)
    (invoke : List FileInfo → BatchResult) : BatchResult :=
  if file_infos = [] then
    { comments := [], summary := "No reviewable files in this PR." }
  else
    let batches := plan_batches limit file_infos
    let results := batches.map invoke
    let all_comments := (results.map (fun r => r.comments)).flatten
    let summaries := results.map (fun r => r.summary)
    { comments := all_comments,
      summary :=
        if 1 < summaries.length then String.intercalate "\n\n" summaries
        else summaries.headD "" }

/-- C8: for a non-empty run, the aggregated comments are the concatenation,
in batch order, of each batch's comments; the aggregated summary is the
batch summaries joined with the blank-line separator when more than one
batch ran, and the single batch's summary verbatim when exactly one did. -/
theorem review_in_batches_aggregation (limit : Nat) (file_infos : List FileInfo)
    (invoke : List FileInfo → BatchResult) (hne : file_infos ≠ []) :
    (review_in_batches limit file_infos invoke).comments =
      ((plan_batches limit file_infos).map (fun b => (invoke b).comments)).flatten ∧
    (1 < (plan_batches limit file_infos).length →
      (review_in_batches limit file_infos invoke).summary =
        String.intercalate "\n\n"
          ((plan_batches limit file_infos).map (fun b => (invoke b).summary))) ∧
    (∀ b : List FileInfo, plan_batches limit file_infos = [b] →
      (review_in_batches limit file_infos invoke).summary = (invoke b).summary) := by
  refine ⟨?_, ?_, ?_⟩
  · simp [review_in_batches, hne, List.map_map]
    rfl
  · intro hlen
    simp [review_in_batches, hne, hlen, List.map_map]
    rfl
  · intro b hb
    simp [review_in_batches, hne, hb]

theorem review_in_batches_aggregation_witness :
    ([fileA] : List FileInfo) ≠ [] ∧
    plan_batches 5 [fileA] = [[fileA]] ∧
    (review_in_batches 5 [fileA]
        (fun _ => { comments := [], summary := "all good" })).summary = "all good" := by
  refine ⟨by decide, by decide, ?_⟩
  exact (review_in_batches_aggregation 5 [fileA]
      (fun _ => { comments := [], summary := "all good" }) (by decide)).2.2
    [fileA] (by decide)

/-- What `main` (lines 446-488) does after argument parsing, as a function of
the token taken from the environment (absent modelled as the empty string,
matching `os.environ.get("SL_GITHUB_TOKEN", "")`) and of the outcome
`review_pr` would have: the exit code, paired with whether `review_pr` — the
only caller of `fetch_pull_request` — was invoked at all.  An empty token
returns 1 before `review_pr` is reached; otherwise `review_pr` runs and any
exception it raises is converted to exit code 1. -/
def main_result (github_token : String) (review_outcome : Except String Unit) :
    Int × Bool :=
  if github_token = "" then
    (1, false)
  else
    match review_outcome with
    | Except.ok _ => (0, true)
    | Except.error _ => (1, true)

/-- C9: with the access token absent (empty), `main` exits with code 1 and
`review_pr` — and hence `fetch_pull_request`, which only `review_pr` calls —
is never invoked, whatever that call would have done. -/
theorem main_missing_token_exits_early (review_outcome : Except String Unit) :
    main_result "" review_outcome = (1, false) := rfl

/-- Default repository used when the PR argument is a bare number
(`REPO_NAME` in the script). -/
def REPO_NAME : String := "berekmerilorand/techWeekSL"

/-- Numeric value of a list of decimal digit characters. -/
def digits_to_nat (ds : List Char) : Nat :=
  ds.foldl (fun n c => 10 * n + (c.toNat - 48)) 0

/-- One `[^/]+/` step of the PR-URL regular expression: the maximal run of
non-slash characters, which must be non-empty and followed by a slash;
returns the run and the remainder after the slash. -/
def split_segment (cs : List Char) : Option (List Char × List Char) :=
  match cs.takeWhile (fun c => c != '/'), cs.dropWhile (fun c => c != '/') with
  | [], _ => none
  | _, [] => none
  | seg, _ :: rest => some (seg, rest)

/-- `PR_URL_PATTERN.match(value)` followed by the group extraction of
`parse_pr_arg`: the pattern
`https?://github\.com/([^/]+)/([^/]+)/pull/(\d+)` is anchored at the start
of the string only, so any trailing characters are ignored; on a match the
owner, the repo and the numeric value of the digit run are returned. -/
def pr_url_match (value : String) : Option (String × String × Nat) :=
  let cs := value.toList
  let rest? : Option (List Char) :=
    if "https://github.com/".toList.isPrefixOf cs then some (cs.drop 19)
    else if "http://github.com/".toList.isPrefixOf cs then some (cs.drop 18)
    else none
  match rest? with
  | none => none
  | some rest =>
    match split_segment rest with
    | none => none
    | some (owner, rest1) =>
      match split_segment rest1 with
      | none => none
      | some (repo, rest2) =>
        if "pull/".toList.isPrefixOf rest2 then
          let ds := (rest2.drop 5).takeWhile Char.isDigit
          if ds = [] then none
          else some (String.mk owner, String.mk repo, digits_to_nat ds)
        else none

/-- Model of Python's `int()` on a string: optional surrounding whitespace,
an optional sign, then one or more decimal digits (digit-group underscores
are not modelled); `none` models the `ValueError`. -/
def py_int_parse (s : String) : Option Int :=
  let cs := ((s.toList.dropWhile Char.isWhitespace).reverse.dropWhile
    Char.isWhitespace).reverse
  match cs with
  | '-' :: ds =>
    if ds ≠ [] ∧ ds.all Char.isDigit then some (-(digits_to_nat ds : Int)) else none
  | '+' :: ds =>
    if ds ≠ [] ∧ ds.all Char.isDigit then some ((digits_to_nat ds : Int)) else none
  | ds =>
    if ds ≠ [] ∧ ds.all Char.isDigit then some ((digits_to_nat ds : Int)) else none

/-- `parse_pr_arg` (lines 113-125): a URL match wins and yields
`(owner/repo, number)`; otherwise the argument must parse as an integer and
is paired with the default repository; otherwise an `ArgumentTypeError` is
raised, modelled as `Except.error` with the script's message. -/
def parse_pr_arg (value : String) : Except String (String × Int) :=
  match pr_url_match value with
  | some (owner, repo, n) => Except.ok (owner ++ "/" ++ repo, (n : Int))
  | none =>
    match py_int_parse value with
    | some n => Except.ok (REPO_NAME, n)
    | none =>
      Except.error ("Expected a PR number or GitHub PR URL, got: " ++ value)

lemma isPrefixOf_append_self (p r : List Char) : p.isPrefixOf (p ++ r) = true := by
  induction p with
  | nil => simp [List.isPrefixOf]
  | cons a s ih => simp [List.isPrefixOf, ih]

lemma takeWhile_middle (p : Char → Bool) :
    ∀ (seg : List Char) (x : Char) (rest : List Char),
      (∀ c ∈ seg, p c = true) → p x = false →
      (seg ++ x :: rest).takeWhile p = seg ∧
      (seg ++ x :: rest).dropWhile p = x :: rest := by
  intro seg
  induction seg with
  | nil =>
    intro x rest _ hx
    simp [List.takeWhile, List.dropWhile, hx]
  | cons a s ih =>
    intro x rest hall hx
    have ha : p a = true := hall a (by simp)
    have hrec := ih x rest (fun c hc => hall c (by simp [hc])) hx
    simp [List.takeWhile_cons, List.dropWhile_cons, ha, hrec.1, hrec.2]

lemma split_segment_append (seg rest : List Char) (hne : seg ≠ [])
    (hns : '/' ∉ seg) :
    split_segment (seg ++ '/' :: rest) = some (seg, rest) := by
  have hall : ∀ c ∈ seg, (c != '/') = true := by
    intro c hc
    have : c ≠ '/' := by
      intro h
      exact hns (h ▸ hc)
    simpa using this
  have h := takeWhile_middle (fun c => c != '/') seg '/' rest hall (by simp)
  unfold split_segment
  rw [h.1, h.2]
  cases seg with
  | nil => exact absurd rfl hne
  | cons a s => rfl

lemma takeWhile_digits (num trail : List Char)
    (hd : ∀ c ∈ num, c.isDigit = true)
    (ht : trail.head?.all (fun c => !c.isDigit) = true) :
    (num ++ trail).takeWhile Char.isDigit = num := by
  induction num with
  | nil =>
    cases trail with
    | nil => rfl
    | cons c t =>
      have hc : c.isDigit = false := by
        simpa using ht
      simp [List.takeWhile_cons, hc]
  | cons a s ih =>
    have ha : a.isDigit = true := hd a (by simp)
    have hrec := ih (fun c hc => hd c (by simp [hc]))
    simp [List.takeWhile_cons, ha, hrec]

lemma drop_length_append (p r : List Char) : (p ++ r).drop p.length = r := by
  induction p with
  | nil => rfl
  | cons a s ih => simp [ih]

lemma pr_url_match_full (owner repo num trail : List Char)
    (how : owner ≠ []) (hos : '/' ∉ owner)
    (hrw : repo ≠ []) (hrs : '/' ∉ repo)
    (hnum : num ≠ []) (hdig : ∀ c ∈ num, c.isDigit = true)
    (htrail : trail.head?.all (fun c => !c.isDigit) = true) :
    pr_url_match (String.mk ("https://github.com/".toList ++ owner ++ '/' ::
        (repo ++ '/' :: ("pull/".toList ++ (num ++ trail))))) =
      some (String.mk owner, String.mk repo, digits_to_nat num) := by
  have hcs : (String.mk ("https://github.com/".toList ++ owner ++ '/' ::
      (repo ++ '/' :: ("pull/".toList ++ (num ++ trail))))).toList =
      "https://github.com/".toList ++ (owner ++ '/' ::
        (repo ++ '/' :: ("pull/".toList ++ (num ++ trail)))) := by
    simp
  have hpre : ("https://github.com/".toList).isPrefixOf
      ("https://github.com/".toList ++ (owner ++ '/' ::
        (repo ++ '/' :: ("pull/".toList ++ (num ++ trail))))) = true :=
    isPrefixOf_append_self _ _
  have hlen19 : ("https://github.com/".toList).length = 19 := by decide
  have hdrop : ("https://github.com/".toList ++ (owner ++ '/' ::
      (repo ++ '/' :: ("pull/".toList ++ (num ++ trail))))).drop 19 =
      owner ++ '/' :: (repo ++ '/' :: ("pull/".toList ++ (num ++ trail))) := by
    rw [← hlen19]
    exact drop_length_append _ _
  have hseg1 : split_segment (owner ++ '/' ::
      (repo ++ '/' :: ("pull/".toList ++ (num ++ trail)))) =
      some (owner, repo ++ '/' :: ("pull/".toList ++ (num ++ trail))) :=
    split_segment_append _ _ how hos
  have hseg2 : split_segment (repo ++ '/' :: ("pull/".toList ++ (num ++ trail))) =
      some (repo, "pull/".toList ++ (num ++ trail)) :=
    split_segment_append _ _ hrw hrs
  have hpull : ("pull/".toList).isPrefixOf ("pull/".toList ++ (num ++ trail)) = true :=
    isPrefixOf_append_self _ _
  have hlen5 : ("pull/".toList).length = 5 := by decide
  have hdrop5 : ("pull/".toList ++ (num ++ trail)).drop 5 = num ++ trail := by
    rw [← hlen5]
    exact drop_length_append _ _
  have htake : (num ++ trail).takeWhile Char.isDigit = num :=
    takeWhile_digits num trail hdig htrail
  unfold pr_url_match
  rw [hcs]
  simp only [hpre, eq_self_iff_true, if_true, hdrop, hseg1, hseg2, hpull, hdrop5,
    htake]
  rw [if_neg hnum]

/-- C10: a string beginning with a well-formed GitHub PR URL is accepted
with the embedded owner/repo and number, whatever follows the digit run (the
pattern is matched at the start only); a string with no such URL prefix that
parses as an integer yields the default repository with that integer; the
error is raised exactly in the remaining case; and concretely a URL carrying
a `/files` tail, a bare number and a non-number behave accordingly. -/
theorem parse_pr_arg_spec :
    (∀ (owner repo num trail : List Char),
      owner ≠ [] → '/' ∉ owner → repo ≠ [] → '/' ∉ repo →
      num ≠ [] → (∀ c ∈ num, c.isDigit = true) →
      trail.head?.all (fun c => !c.isDigit) = true →
      parse_pr_arg (String.mk ("https://github.com/".toList ++ owner ++ '/' ::
          (repo ++ '/' :: ("pull/".toList ++ (num ++ trail))))) =
        Except.ok (String.mk owner ++ "/" ++ String.mk repo,
          (digits_to_nat num : Int))) ∧
    (∀ (value : String) (n : Int), pr_url_match value = none →
      py_int_parse value = some n →
      parse_pr_arg value = Except.ok (REPO_NAME, n)) ∧
    (∀ value : String, pr_url_match value = none → py_int_parse value = none →
      parse_pr_arg value =
        Except.error ("Expected a PR number or GitHub PR URL, got: " ++ value)) ∧
    parse_pr_arg "https://github.com/octo/hello/pull/123/files" =
      Except.ok ("octo/hello", 123) ∧
    parse_pr_arg "45" = Except.ok (REPO_NAME, 45) ∧
    parse_pr_arg "abc" =
      Except.error "Expected a PR number or GitHub PR URL, got: abc" := by
  refine ⟨?_, ?_, ?_, by rfl, by rfl, by rfl⟩
  · intro owner repo num trail how hos hrw hrs hnum hdig htrail
    unfold parse_pr_arg
    rw [pr_url_match_full owner repo num trail how hos hrw hrs hnum hdig htrail]
  · intro value n hurl hint
    unfold parse_pr_arg
    rw [hurl, hint]
  · intro value hurl hint
    unfold parse_pr_arg
    rw [hurl, hint]

theorem parse_pr_arg_spec_witness :
    parse_pr_arg (String.mk ("https://github.com/".toList ++ "octo".toList ++ '/' ::
        ("hello".toList ++ '/' :: ("pull/".toList ++
          ("123".toList ++ "/files".toList))))) =
      Except.ok (String.mk "octo".toList ++ "/" ++ String.mk "hello".toList,
        (digits_to_nat "123".toList : Int)) :=
  parse_pr_arg_spec.1 "octo".toList "hello".toList "123".toList "/files".toList
    (by decide) (by decide) (by decide) (by decide) (by decide) (by decide)
    (by decide)

end PrReview
